import Mathlib

/-!
Verification development for the RAG pipeline core (`pipeline.py` of the
Brick-mapper repository).  The Python class `RAGPipeline` is shallowly
embedded: strings are Lean `String`s (lists of characters), the compiled
regex `BRICK_ID_PATTERN = (KW|S|G)-\d+(\.\d+)?` (IGNORECASE) is embedded as
a deterministic matcher with Python `re` semantics (leftmost alternation,
greedy `\d+`, optional greedy `(\.\d+)?`, non-overlapping `finditer` scan),
and the JSON layer is embedded with an executable model of `json.loads`.
Python's `\d`, `str.upper` and `str.strip` are Unicode-aware; the embedding
models them on their ASCII subsets, which cover every string the pipeline's
own constants and contracts produce.
-/

set_option autoImplicit false

namespace RAGPipeline

/-! ### The identifier grammar: `BRICK_ID_PATTERN = (KW|S|G)-\d+(\.\d+)?`, IGNORECASE -/

/-- The alternation `(KW|S|G)` tried at the head of `cs`, case-insensitively,
in the regex's left-to-right order (`KW` before `S` before `G`).  Returns the
consumed characters (as they appear in the input) and the remaining input. -/
def matchCat : List Char → Option (List Char × List Char)
  | c1 :: c2 :: rest =>
    if c1.toUpper = 'K' ∧ c2.toUpper = 'W' then some ([c1, c2], rest)
    else if c1.toUpper = 'S' ∨ c1.toUpper = 'G' then some ([c1], c2 :: rest)
    else none
  | [c1] =>
    if c1.toUpper = 'S' ∨ c1.toUpper = 'G' then some ([c1], []) else none
  | [] => none

/-- Attempt to match `BRICK_ID_PATTERN` anchored at the head of `cs`:
category, literal `-`, greedy `\d+`, then the optional greedy sub-index
`(\.\d+)?`.  Returns the full match (`match.group(0)`) and the rest. -/
def matchIdAt (cs : List Char) : Option (List Char × List Char) :=
  match matchCat cs with
  | none => none
  | some (cat, r1) =>
    match r1 with
    | [] => none
    | c :: r2 =>
      if c = '-' then
        if r2.takeWhile Char.isDigit = [] then none
        else
          match r2.dropWhile Char.isDigit with
          | [] => some (cat ++ '-' :: r2.takeWhile Char.isDigit, r2.dropWhile Char.isDigit)
          | c3 :: r4 =>
            if c3 = '.' then
              if r4.takeWhile Char.isDigit = [] then
                some (cat ++ '-' :: r2.takeWhile Char.isDigit, r2.dropWhile Char.isDigit)
              else
                some (cat ++ '-' :: r2.takeWhile Char.isDigit ++
                    '.' :: r4.takeWhile Char.isDigit,
                  r4.dropWhile Char.isDigit)
            else some (cat ++ '-' :: r2.takeWhile Char.isDigit, r2.dropWhile Char.isDigit)
      else none

/-- Fuel-indexed scan behind `findAll`; the fuel only serves structural
termination and is irrelevant as soon as it bounds the input length. -/
def findAllAux : Nat → List Char → List (List Char)
  | 0, _ => []
  | _ + 1, [] => []
  | fuel + 1, c :: rest =>
    match matchIdAt (c :: rest) with
    | some (m, r) => m :: findAllAux fuel r
    | none => findAllAux fuel rest

/-- `BRICK_ID_PATTERN.finditer(cs)`: scan left to right; at each position try
an anchored match; on success emit it and resume after it (non-overlapping),
otherwise advance one character. -/
def findAll (cs : List Char) : List (List Char) := findAllAux cs.length cs

/-- `match.group(0).upper()`: Python `str.upper` on ASCII content, applied
characterwise. -/
def upperStr (cs : List Char) : List Char := cs.map Char.toUpper

/-- Python `", ".join(ids)`. -/
def joinIds : List (List Char) → List Char
  | [] => []
  | [x] => x
  | x :: y :: xs => x ++ ',' :: ' ' :: joinIds (y :: xs)

/-- Embedding of `RAGPipeline._clean_prerequisites`.  The source's
`findall`-nonempty guard before the `finditer` loop is equivalent to checking
that the list of `finditer` matches is nonempty, since `findall` and
`finditer` report the same match count. -/
def clean_prerequisites (raw : String) : String :=
  if raw = "" ∨ raw = "-" then "-"
  else if (findAll raw.data).map upperStr = [] then "-"
  else ⟨joinIds ((findAll raw.data).map upperStr)⟩

/-- Reference sanitizer written from the spec's own words (§4.6): scan the
raw text for every non-overlapping substring matching the Identifier
Grammar, in left-to-right order of appearance, uppercase each, and join
them with `", "`; if the raw text is empty, equal to `"-"`, or contains no
matches, the result is `"-"`. -/
def sanitizeSpec (raw : String) : String :=
  if raw = "" ∨ raw = "-" ∨ (findAll raw.data).map upperStr = [] then "-"
  else ⟨joinIds ((findAll raw.data).map upperStr)⟩

/-- The two retrieval indices held by the pipeline (`self.specific_retriever`
and `self.general_retriever`); routing only chooses between them. -/
inductive RetrieverTag
  | specific
  | general
deriving DecidableEq

/-- `BRICK_ID_PATTERN.search(query)` viewed as a Boolean: does some position
of the text start a match? -/
def searchBrickId : List Char → Bool
  | [] => false
  | c :: rest => (matchIdAt (c :: rest)).isSome || searchBrickId rest

/-- Embedding of `RAGPipeline._select_retriever`. -/
def select_retriever (query : String) : RetrieverTag :=
  if searchBrickId query.data then .specific else .general

/-! ### The identifier grammar as an explicit predicate (canonical uppercase form) -/

/-- Tail of an identifier after the category and separator: one or more
digits, optionally followed by a dot and one or more digits. -/
def numTail (t : List Char) : Bool :=
  !(t.takeWhile Char.isDigit).isEmpty &&
    (match t.dropWhile Char.isDigit with
     | [] => true
     | '.' :: ds2 => !ds2.isEmpty && ds2.all Char.isDigit
     | _ => false)

/-- Membership in the Identifier Grammar, canonical (uppercase) form: a
category letter group from the fixed set (`KW`, `S`, `G`), the separator
`-`, one or more digits, and an optional `.`-prefixed numeric sub-index. -/
def isBrickIdU : List Char → Bool
  | 'K' :: 'W' :: '-' :: t => numTail t
  | 'S' :: '-' :: t => numTail t
  | 'G' :: '-' :: t => numTail t
  | _ => false

/-! ### JSON values and a model of `json.loads` -/

/-- JSON values as produced by Python's `json.loads`.  Numeric literals keep
their lexeme: the pipeline never computes with them, and Python floats stay
out of the embedding. -/
inductive Json where
  | null
  | bool (b : Bool)
  | num (lexeme : List Char)
  | str (s : String)
  | arr (elems : List Json)
  | obj (fields : List (String × Json))

/-- Parser mode: a value, the members of an object after `{`, or the
elements of an array after `[`. -/
inductive PMode where
  | value
  | objItems
  | arrItems

/-- The whitespace `json.loads` skips between tokens. -/
def jsonWs (c : Char) : Bool := c = ' ' || c = '\t' || c = '\n' || c = '\r'

def skipWs (cs : List Char) : List Char := cs.dropWhile jsonWs

def hexVal (c : Char) : Option Nat :=
  if c.isDigit then some (c.toNat - 48)
  else if 'a' ≤ c ∧ c ≤ 'f' then some (c.toNat - 87)
  else if 'A' ≤ c ∧ c ≤ 'F' then some (c.toNat - 55)
  else none

def escChar (e : Char) : Option Char :=
  if e = '"' then some '"'
  else if e = '\\' then some '\\'
  else if e = '/' then some '/'
  else if e = 'b' then some (Char.ofNat 8)
  else if e = 'f' then some (Char.ofNat 12)
  else if e = 'n' then some '\n'
  else if e = 'r' then some '\r'
  else if e = 't' then some '\t'
  else none

/-- A JSON string literal after its opening quote: content up to the closing
quote, with the standard escapes. -/
def parseStringLit : List Char → Option (List Char × List Char)
  | [] => none
  | '"' :: rest => some ([], rest)
  | '\\' :: 'u' :: h1 :: h2 :: h3 :: h4 :: rest =>
    match hexVal h1, hexVal h2, hexVal h3, hexVal h4, parseStringLit rest with
    | some a, some b, some c, some d, some (s, r) =>
      some (Char.ofNat (((a * 16 + b) * 16 + c) * 16 + d) :: s, r)
    | _, _, _, _, _ => none
  | '\\' :: e :: rest =>
    match escChar e, parseStringLit rest with
    | some c, some (s, r) => some (c :: s, r)
    | _, _ => none
  | c :: rest =>
    match parseStringLit rest with
    | some (s, r) => some (c :: s, r)
    | none => none

def parseFrac (cs : List Char) : Option (List Char × List Char) :=
  match cs with
  | '.' :: r =>
    if r.takeWhile Char.isDigit = [] then none
    else some ('.' :: r.takeWhile Char.isDigit, r.dropWhile Char.isDigit)
  | _ => some ([], cs)

def parseExp (cs : List Char) : Option (List Char × List Char) :=
  match cs with
  | c :: r =>
    if c = 'e' ∨ c = 'E' then
      match r with
      | s :: r2 =>
        if s = '+' ∨ s = '-' then
          if r2.takeWhile Char.isDigit = [] then none
          else some (c :: s :: r2.takeWhile Char.isDigit, r2.dropWhile Char.isDigit)
        else
          if r.takeWhile Char.isDigit = [] then none
          else some (c :: r.takeWhile Char.isDigit, r.dropWhile Char.isDigit)
      | [] => none
    else some ([], cs)
  | [] => some ([], [])

/-- A JSON number: optional sign, digits, optional fraction and exponent;
the consumed lexeme is returned verbatim. -/
def parseNumber (cs : List Char) : Option (List Char × List Char) :=
  match cs with
  | '-' :: r =>
    if r.takeWhile Char.isDigit = [] then none
    else
      match parseFrac (r.dropWhile Char.isDigit) with
      | none => none
      | some (f, r2) =>
        match parseExp r2 with
        | none => none
        | some (ex, r3) => some ('-' :: (r.takeWhile Char.isDigit ++ f ++ ex), r3)
  | _ =>
    if cs.takeWhile Char.isDigit = [] then none
    else
      match parseFrac (cs.dropWhile Char.isDigit) with
      | none => none
      | some (f, r2) =>
        match parseExp r2 with
        | none => none
        | some (ex, r3) => some (cs.takeWhile Char.isDigit ++ f ++ ex, r3)

/-- Recursive-descent model of `json.loads`, fueled for structural
termination (`loads` supplies fuel exceeding the nesting depth).  Kept out
of scope, as the claims do not reach them: the `NaN`/`Infinity` constants,
the rejection of raw control characters inside strings, leading-zero
rejection, duplicate-key overwriting and surrogate-pair decoding. -/
def parseJ : Nat → PMode → List Char → Option (Json × List Char)
  | 0, _, _ => none
  | fuel + 1, .value, cs =>
    match skipWs cs with
    | '{' :: rest =>
      (match skipWs rest with
       | '}' :: r2 => some (.obj [], r2)
       | _ => parseJ fuel .objItems rest)
    | '[' :: rest =>
      (match skipWs rest with
       | ']' :: r2 => some (.arr [], r2)
       | _ => parseJ fuel .arrItems rest)
    | '"' :: rest =>
      (match parseStringLit rest with
       | some (s, r) => some (.str ⟨s⟩, r)
       | none => none)
    | 't' :: 'r' :: 'u' :: 'e' :: rest => some (.bool true, rest)
    | 'f' :: 'a' :: 'l' :: 's' :: 'e' :: rest => some (.bool false, rest)
    | 'n' :: 'u' :: 'l' :: 'l' :: rest => some (.null, rest)
    | rest =>
      (match parseNumber rest with
       | some (lex, r) => some (.num lex, r)
       | none => none)
  | fuel + 1, .objItems, cs =>
    match skipWs cs with
    | '"' :: rest =>
      (match parseStringLit rest with
       | none => none
       | some (k, r1) =>
         match skipWs r1 with
         | ':' :: r2 =>
           (match parseJ fuel .value r2 with
            | none => none
            | some (v, r3) =>
              match skipWs r3 with
              | ',' :: r4 =>
                (match parseJ fuel .objItems r4 with
                 | some (.obj fs, r5) => some (.obj ((⟨k⟩, v) :: fs), r5)
                 | _ => none)
              | '}' :: r4 => some (.obj [(⟨k⟩, v)], r4)
              | _ => none)
         | _ => none)
    | _ => none
  | fuel + 1, .arrItems, cs =>
    match parseJ fuel .value cs with
    | none => none
    | some (v, r1) =>
      match skipWs r1 with
      | ',' :: r2 =>
        (match parseJ fuel .arrItems r2 with
         | some (.arr vs, r3) => some (.arr (v :: vs), r3)
         | _ => none)
      | ']' :: r2 => some (.arr [v], r2)
      | _ => none

/-- `json.loads`: parse one value and require only whitespace after it. -/
def loads (s : String) : Option Json :=
  match parseJ (s.data.length + 1) .value s.data with
  | some (j, rest) => if skipWs rest = [] then some j else none
  | none => none

/-! ### Python-semantics helpers for the parse and row-processing layer -/

/-- Python `str.strip()` whitespace (the six ASCII whitespace characters). -/
def pySpace (c : Char) : Bool :=
  c = ' ' || c = '\t' || c = '\n' || c = '\r' || c = Char.ofNat 11 || c = Char.ofNat 12

def pyStripList (cs : List Char) : List Char :=
  ((cs.dropWhile pySpace).reverse.dropWhile pySpace).reverse

/-- Fuel-indexed scan behind `stripFences`. -/
def stripFencesAux : Nat → List Char → List Char
  | 0, cs => cs
  | _ + 1, [] => []
  | fuel + 1, c :: rest =>
    if ['`', '`', '`', 'j', 's', 'o', 'n'].isPrefixOf (c :: rest) then
      stripFencesAux fuel ((c :: rest).drop 7)
    else if ['`', '`', '`'].isPrefixOf (c :: rest) then
      stripFencesAux fuel ((c :: rest).drop 3)
    else c :: stripFencesAux fuel rest

/-- The code-fence removal `re.sub(r"` ``` `json|` ``` `", "", text)`: scan
left to right; at each position remove a fence marker (trying the longer
alternative first, as the regex alternation does) or keep the character. -/
def stripFences (cs : List Char) : List Char := stripFencesAux cs.length cs

/-- The text `_parse_json` hands to `json.loads`: fences removed, then
stripped. -/
def cleanedText (text : String) : String := ⟨pyStripList (stripFences text.data)⟩

def hasKey (fields : List (String × Json)) (k : String) : Bool :=
  fields.any fun p => p.1 = k

/-- Is `pat` a contiguous substring of `hay` (Python `in` on strings)? -/
def containsSub (hay pat : List Char) : Bool :=
  match hay with
  | [] => pat.isEmpty
  | c :: t => List.isPrefixOf pat (c :: t) || containsSub t pat

def jsonStrEq (needle : String) : Json → Bool
  | .str s => s = needle
  | _ => false

/-- Python `needle in j`: key membership for a dict, element equality for a
list, substring for a string; a `TypeError` for `int`/`float`/`bool`/`None`
(the error text is condensed to the exception's name). -/
def pyContains (needle : String) (j : Json) : Except String Bool :=
  match j with
  | .obj fields => .ok (hasKey fields needle)
  | .arr elems => .ok (elems.any (jsonStrEq needle))
  | .str s => .ok (containsSub s.data needle.data)
  | _ => .error "TypeError"

/-- Embedding of `RAGPipeline._parse_json`: strip fences and whitespace,
decode, and ensure a `bricks` key.  Only `json.JSONDecodeError` (decode
failure, here `loads` returning `none`) is caught, so the `TypeError` that
`"bricks" not in data` raises on a number, boolean or `None` escapes to the
caller as `.error`. -/
def parse_json (text : String) : Except String Json :=
  match loads (cleanedText text) with
  | none => .ok (Json.obj [("bricks", Json.arr [])])
  | some data =>
    match pyContains "bricks" data with
    | .error e => .error e
    | .ok true => .ok data
    | .ok false => .ok (Json.obj [("bricks", Json.arr [])])

mutual
/-- Python `repr` of a decoded JSON value (`None`, `True`, quoted strings,
bracketed containers). -/
def pyRepr : Json → String
  | .null => "None"
  | .bool true => "True"
  | .bool false => "False"
  | .num lex => ⟨lex⟩
  | .str s => "'" ++ s ++ "'"
  | .arr es => "[" ++ pyReprList es ++ "]"
  | .obj fs => "\x7b" ++ pyReprFields fs ++ "\x7d"

def pyReprList : List Json → String
  | [] => ""
  | [e] => pyRepr e
  | e :: e2 :: es => pyRepr e ++ ", " ++ pyReprList (e2 :: es)

def pyReprFields : List (String × Json) → String
  | [] => ""
  | [(k, v)] => "'" ++ k ++ "': " ++ pyRepr v
  | (k, v) :: f2 :: fs => "'" ++ k ++ "': " ++ pyRepr v ++ ", " ++ pyReprFields (f2 :: fs)
end

/-- Python `str(...)` of a decoded JSON value: the content itself for a
string, `repr` otherwise. -/
def pyStr : Json → String
  | .str s => s
  | j => pyRepr j

/-- Python dict lookup on decoded JSON fields (later bindings shadow
earlier ones, as in a dict built left to right). -/
def objGet (fields : List (String × Json)) (k : String) : Option Json :=
  fields.reverse.lookup k

/-- `b.get(k, default)`: only dicts have `.get`; anything else raises
`AttributeError`. -/
def pyGet (b : Json) (k : String) (dflt : Json) : Except String Json :=
  match b with
  | .obj fs => .ok ((objGet fs k).getD dflt)
  | _ => .error "AttributeError"

def mantissa (lex : List Char) : List Char :=
  lex.takeWhile fun c => c ≠ 'e' ∧ c ≠ 'E'

def numIsZero (lex : List Char) : Bool :=
  (mantissa lex).all fun c => c = '0' || c = '-' || c = '.'

/-- Python truth value (`if not bricks`). -/
def pyFalsy : Json → Bool
  | .null => true
  | .bool b => !b
  | .num lex => numIsZero lex
  | .str s => s = ""
  | .arr es => es.isEmpty
  | .obj fs => fs.isEmpty

/-- `for b in bricks`: lists yield elements, strings their characters, dicts
their keys; `int`/`float`/`bool`/`None` raise `TypeError`. -/
def pyIter : Json → Except String (List Json)
  | .arr es => .ok es
  | .str s => .ok (s.data.map fun c => .str ⟨[c]⟩)
  | .obj fs => .ok (fs.map fun p => .str p.1)
  | _ => .error "TypeError"

/-! ### The retrieved-passage formatter -/

/-- A retrieved passage (`langchain` `Document`) as `_format_context` reads
it: the page content and the two metadata entries it consults; an absent
metadata dict and a dict without the key both surface as `none`. -/
structure Document where
  page_content : String
  chunk_type : Option String
  id : Option String

/-- `doc.page_content.replace("\n", " ").strip()`. -/
def cleanContent (s : String) : String :=
  ⟨pyStripList (s.data.map fun c => if c = '\n' then ' ' else c)⟩

/-- One block of `_format_context`'s output for the document at 0-based
position `i`. -/
def formatDoc (i : Nat) (doc : Document) : String :=
  ⟨"--- SOURCE ".data ++ (toString (i + 1)).data ++ ": Brick ".data ++
    (doc.id.getD "Unknown ID").data ++ " [".data ++
    upperStr (doc.chunk_type.getD "General Info").data ++ "] ---\n".data ++
    (cleanContent doc.page_content).data⟩

/-- Python `"\n\n".join(blocks)`. -/
def joinBlocks : List String → String
  | [] => ""
  | [x] => x
  | x :: y :: xs => x ++ "\n\n" ++ joinBlocks (y :: xs)

/-- Embedding of `RAGPipeline._format_context`. -/
def format_context (docs : List Document) : String :=
  if docs.isEmpty then "No relevant context found."
  else joinBlocks (docs.enum.map fun p => formatDoc p.1 p.2)

/-- Reference formatter following the spec's words (§3 FormattedContext,
§4.3): on an empty sequence the sentinel text; otherwise one block per
passage, numbered from 1 in the order received, prefixed with the passage's
source id and uppercased chunk type (defaults `"Unknown ID"` and
`"General Info"`), the content collapsed to a single line and trimmed. -/
def formatSpecAux (n : Nat) : List Document → List String
  | [] => []
  | d :: ds =>
    (⟨"--- SOURCE ".data ++ (toString n).data ++ ": Brick ".data ++
      (d.id.getD "Unknown ID").data ++ " [".data ++
      upperStr (d.chunk_type.getD "General Info").data ++ "] ---\n".data ++
      (cleanContent d.page_content).data⟩ : String) :: formatSpecAux (n + 1) ds

def formatSpec (docs : List Document) : String :=
  if docs.isEmpty then "No relevant context found."
  else joinBlocks (formatSpecAux 1 docs)

/-! ### The row processor `run_batch_row` -/

/-- Outcome of `self.chain.invoke(description)`: the parsed JSON that the
chain's final `_parse_json` step produced, or the message of any exception
raised along the chain (routing, retrieval, model invocation, parsing).
The retriever and the model are external collaborators, so the chain enters
the row processor as a parameter. -/
inductive ChainOutcome where
  | ok (result : Json)
  | fault (msg : String)

/-- The flat per-row record returned to the UI; the fields carry the keys
`"Brick ID"`, `"Brick Name"`, `"Prerequisites"`, `"Description"`. -/
structure RowResult where
  brickId : String
  brickName : String
  prerequisites : String
  description : String
deriving DecidableEq

def errorRecord (msg : String) : RowResult :=
  ⟨"ERROR", "System Error", "-", msg⟩

def noMatchRecord : RowResult :=
  ⟨"No Match", "-", "-", "No relevant brick found."⟩

/-- Python `"\n".join(strs)`. -/
def joinNl : List String → String
  | [] => ""
  | [x] => x
  | x :: y :: xs => x ++ "\n" ++ joinNl (y :: xs)

/-- One loop iteration of `run_batch_row`: fetch `id`, `name` and
`prerequisites` with `"-"` defaults, coerce the raw prerequisites through
`str()` and sanitize them, and build the fixed-shape reason note. -/
def processBrick (b : Json) : Except String (Json × Json × String × String) :=
  match pyGet b "id" (Json.str "-") with
  | .error e => .error e
  | .ok bid =>
    match pyGet b "name" (Json.str "-") with
    | .error e => .error e
    | .ok bname =>
      match pyGet b "prerequisites" (Json.str "-") with
      | .error e => .error e
      | .ok bpre =>
        .ok (bid, bname, clean_prerequisites (pyStr bpre),
          "[" ++ pyStr bid ++ "]: Mapped based on operation description.")

/-- Left-to-right effectful map: the first brick's fault surfaces before
later bricks are touched, as in the Python loop. -/
def mapExcept (f : Json → Except String (Json × Json × String × String)) :
    List Json → Except String (List (Json × Json × String × String))
  | [] => .ok []
  | b :: bs =>
    match f b with
    | .error e => .error e
    | .ok x =>
      match mapExcept f bs with
      | .error e => .error e
      | .ok xs => .ok (x :: xs)

def asStrs : List Json → Option (List String)
  | [] => some []
  | .str s :: xs => (asStrs xs).map fun ss => s :: ss
  | _ :: _ => none

/-- `"\n".join(xs)` over accumulated values: joining raises `TypeError`
unless every value is a string. -/
def joinPyStrs (xs : List Json) : Except String String :=
  match asStrs xs with
  | some ss => .ok (joinNl ss)
  | none => .error "TypeError"

/-- The body of `run_batch_row`'s `try` block. -/
def runBody (chain : String → ChainOutcome) (desc : String) :
    Except String RowResult :=
  match chain desc with
  | .fault msg => .error msg
  | .ok result =>
    match pyGet result "bricks" (Json.arr []) with
    | .error e => .error e
    | .ok bricks =>
      if pyFalsy bricks then .ok noMatchRecord
      else
        match pyIter bricks with
        | .error e => .error e
        | .ok bs =>
          match mapExcept processBrick bs with
          | .error e => .error e
          | .ok rows =>
            match joinPyStrs (rows.map fun r => r.1) with
            | .error e => .error e
            | .ok ids =>
              match joinPyStrs (rows.map fun r => r.2.1) with
              | .error e => .error e
              | .ok names =>
                .ok ⟨ids, names, joinNl (rows.map fun r => r.2.2.1),
                  joinNl (rows.map fun r => r.2.2.2)⟩

/-- Embedding of `RAGPipeline.run_batch_row`: the try block's record, or the
fixed ERROR record for any exception raised inside it. -/
def run_batch_row (chain : String → ChainOutcome) (desc : String) : RowResult :=
  match runBody chain desc with
  | .ok r => r
  | .error msg => errorRecord msg

/-- The default value a brick dict contributes for key `k` (`"-"` when the
key is absent); only meaningful for dict entries. -/
def getField (b : Json) (k : String) : Json :=
  match b with
  | .obj fs => (objGet fs k).getD (Json.str "-")
  | _ => Json.str "-"

theorem matchCat_decomp {cs cat r : List Char} (h : matchCat cs = some (cat, r)) :
    cs = cat ++ r ∧ cat ≠ [] := by
  match cs with
  | [] => simp [matchCat] at h
  | [c1] =>
    simp only [matchCat] at h
    split at h
    · cases h; simp
    · simp at h
  | c1 :: c2 :: rest =>
    simp only [matchCat] at h
    split at h
    · cases h; simp
    · split at h
      · cases h; simp
      · simp at h

theorem matchIdAt_decomp {cs m r : List Char} (h : matchIdAt cs = some (m, r)) :
    cs = m ++ r ∧ m ≠ [] := by
  unfold matchIdAt at h
  split at h
  · simp at h
  · rename_i cat r1 hcat
    obtain ⟨hcs, hcatne⟩ := matchCat_decomp hcat
    split at h
    · simp at h
    · rename_i c r2
      split at h
      · rename_i hc
        subst hc
        split at h
        · simp at h
        · rename_i hds
          split at h
          · cases h
            refine ⟨?_, by simp⟩
            rw [hcs]
            conv_lhs => rw [← List.takeWhile_append_dropWhile (p := Char.isDigit) (l := r2)]
            simp
          · rename_i c3 r4 hr3
            split at h
            · rename_i hc3
              subst hc3
              split at h
              · cases h
                refine ⟨?_, by simp⟩
                rw [hcs]
                conv_lhs =>
                  rw [← List.takeWhile_append_dropWhile (p := Char.isDigit) (l := r2)]
                simp
              · cases h
                refine ⟨?_, by simp⟩
                rw [hcs]
                conv_lhs =>
                  rw [← List.takeWhile_append_dropWhile (p := Char.isDigit) (l := r2), hr3,
                    ← List.takeWhile_append_dropWhile (p := Char.isDigit) (l := r4)]
                simp
            · cases h
              refine ⟨?_, by simp⟩
              rw [hcs]
              conv_lhs => rw [← List.takeWhile_append_dropWhile (p := Char.isDigit) (l := r2)]
              simp
      · simp at h

theorem rest_length_lt {c : Char} {rest m r : List Char}
    (h : matchIdAt (c :: rest) = some (m, r)) : r.length ≤ rest.length := by
  obtain ⟨hd, hne⟩ := matchIdAt_decomp h
  have : (c :: rest).length = m.length + r.length := by rw [hd, List.length_append]
  have hm : 0 < m.length := List.length_pos.mpr hne
  simp only [List.length_cons] at this
  omega

theorem findAllAux_fuel_irrel :
    ∀ (fuel₁ fuel₂ : Nat) (cs : List Char), cs.length ≤ fuel₁ → cs.length ≤ fuel₂ →
      findAllAux fuel₁ cs = findAllAux fuel₂ cs := by
  intro fuel₁
  induction fuel₁ with
  | zero =>
    intro fuel₂ cs h₁ _
    have : cs = [] := List.eq_nil_of_length_eq_zero (Nat.le_zero.mp h₁)
    subst this
    cases fuel₂ <;> rfl
  | succ f₁ ih =>
    intro fuel₂ cs h₁ h₂
    match cs with
    | [] => cases fuel₂ <;> rfl
    | c :: rest =>
      match fuel₂ with
      | 0 => simp at h₂
      | f₂ + 1 =>
        simp only [List.length_cons, Nat.succ_le_succ_iff] at h₁ h₂
        simp only [findAllAux]
        cases hm : matchIdAt (c :: rest) with
        | some mr =>
          obtain ⟨m, r⟩ := mr
          have hr := rest_length_lt hm
          dsimp only
          rw [ih f₂ r (le_trans hr h₁) (le_trans hr h₂)]
        | none =>
          dsimp only
          rw [ih f₂ rest h₁ h₂]

theorem findAll_cons_match {c : Char} {rest m r : List Char}
    (h : matchIdAt (c :: rest) = some (m, r)) :
    findAll (c :: rest) = m :: findAll r := by
  have hr := rest_length_lt h
  simp only [findAll, List.length_cons, findAllAux, h]
  rw [findAllAux_fuel_irrel rest.length r.length r hr le_rfl]

theorem findAll_cons_nomatch {c : Char} {rest : List Char}
    (h : matchIdAt (c :: rest) = none) :
    findAll (c :: rest) = findAll rest := by
  simp only [findAll, List.length_cons, findAllAux, h]

/-! ### Character and list facts -/

theorem toUpper_eq_self_of_small {c : Char} (h : Char.toNat c < 97) : c.toUpper = c := by
  simp only [Char.toUpper]
  rw [if_neg (by omega)]

theorem toUpper_of_isDigit {c : Char} (h : c.isDigit = true) : c.toUpper = c := by
  apply toUpper_eq_self_of_small
  simp only [Char.isDigit, Bool.and_eq_true, decide_eq_true_eq] at h
  have := UInt32.toNat_le_of_le (n := c.val) (m := 57) (by decide) h.2
  simp only [Char.toNat]
  omega

theorem mem_takeWhile_pred {p : Char → Bool} {l : List Char} :
    ∀ c ∈ l.takeWhile p, p c = true := by
  intro c hc
  exact List.all_eq_true.mp (List.all_takeWhile (l := l)) c hc

theorem takeWhile_all_eq {p : Char → Bool} {l : List Char} (h : ∀ c ∈ l, p c = true) :
    l.takeWhile p = l ∧ l.dropWhile p = [] := by
  induction l with
  | nil => exact ⟨rfl, rfl⟩
  | cons c l' ih =>
    have hc := h c (by simp)
    have ih' := ih fun d hd => h d (by simp [hd])
    simp [List.takeWhile_cons, List.dropWhile_cons, hc, ih'.1, ih'.2]

theorem takeWhile_append_eq {p : Char → Bool} {ds t : List Char}
    (hds : ∀ c ∈ ds, p c = true) (ht : ∀ c ∈ t.head?, p c = false) :
    (ds ++ t).takeWhile p = ds ∧ (ds ++ t).dropWhile p = t := by
  rw [List.takeWhile_append_of_pos hds, List.dropWhile_append_of_pos hds]
  cases t with
  | nil => simp
  | cons c t' =>
    have hc : p c = false := ht c rfl
    simp [List.takeWhile_cons, List.dropWhile_cons, hc]

theorem takeWhile_ne_nil_head {p : Char → Bool} {l : List Char}
    (h : l.takeWhile p ≠ []) : ∃ c l', l = c :: l' ∧ p c = true := by
  cases l with
  | nil => simp at h
  | cons c l' =>
    refine ⟨c, l', rfl, ?_⟩
    cases hc : p c with
    | true => rfl
    | false => simp [List.takeWhile_cons, hc] at h

theorem upperStr_fixed {l : List Char} (h : ∀ c ∈ l, c.toUpper = c) : upperStr l = l := by
  induction l with
  | nil => rfl
  | cons c l' ih =>
    have := h c (by simp)
    simp only [upperStr, List.map_cons, this]
    have ih' := ih fun d hd => h d (by simp [hd])
    simp only [upperStr] at ih'
    rw [ih']

/-! ### Structure of successful matches -/

theorem matchCat_again {cs cat r1 : List Char} (h : matchCat cs = some (cat, r1)) :
    ∀ t, matchCat (cat ++ t) = some (cat, t) := by
  intro t
  match cs with
  | [] => simp [matchCat] at h
  | [c1] =>
    simp only [matchCat] at h
    split at h
    · rename_i hc
      cases h
      cases t with
      | nil => simp [matchCat, hc]
      | cons c2 t' =>
        have hk : ¬(c1.toUpper = 'K' ∧ c2.toUpper = 'W') := by
          rintro ⟨h1, -⟩
          rcases hc with h2 | h2 <;> rw [h1] at h2 <;> exact absurd h2 (by decide)
        simp [matchCat, hk, hc]
    · simp at h
  | c1 :: c2 :: rest =>
    simp only [matchCat] at h
    split at h
    · rename_i hc
      cases h
      simp [matchCat, hc]
    · split at h
      · rename_i hc
        cases h
        cases t with
        | nil => simp [matchCat, hc]
        | cons c2' t' =>
          have hk : ¬(c1.toUpper = 'K' ∧ c2'.toUpper = 'W') := by
            rintro ⟨h1, -⟩
            rcases hc with h2 | h2 <;> rw [h1] at h2 <;> exact absurd h2 (by decide)
          simp [matchCat, hk, hc]
      · simp at h

theorem matchCat_upper {cs cat r1 : List Char} (h : matchCat cs = some (cat, r1)) :
    upperStr cat = ['K', 'W'] ∨ upperStr cat = ['S'] ∨ upperStr cat = ['G'] := by
  match cs with
  | [] => simp [matchCat] at h
  | [c1] =>
    simp only [matchCat] at h
    split at h
    · rename_i hc
      cases h
      rcases hc with h2 | h2
      · exact Or.inr (Or.inl (by simp [upperStr, h2]))
      · exact Or.inr (Or.inr (by simp [upperStr, h2]))
    · simp at h
  | c1 :: c2 :: rest =>
    simp only [matchCat] at h
    split at h
    · rename_i hc
      cases h
      exact Or.inl (by simp [upperStr, hc.1, hc.2])
    · split at h
      · rename_i hc
        cases h
        rcases hc with h2 | h2
        · exact Or.inr (Or.inl (by simp [upperStr, h2]))
        · exact Or.inr (Or.inr (by simp [upperStr, h2]))
      · simp at h

theorem matchIdAt_shape {cs m r : List Char} (h : matchIdAt cs = some (m, r)) :
    ∃ cat ds, ds ≠ [] ∧ (∀ c ∈ ds, c.isDigit = true) ∧
      (∀ t, matchCat (cat ++ t) = some (cat, t)) ∧
      (upperStr cat = ['K', 'W'] ∨ upperStr cat = ['S'] ∨ upperStr cat = ['G']) ∧
      (m = cat ++ '-' :: ds ∨
        ∃ ds2, ds2 ≠ [] ∧ (∀ c ∈ ds2, c.isDigit = true) ∧
          m = cat ++ '-' :: ds ++ '.' :: ds2) := by
  unfold matchIdAt at h
  split at h
  · simp at h
  · rename_i cat r1 hcat
    have hagain := matchCat_again hcat
    have hupper := matchCat_upper hcat
    split at h
    · simp at h
    · rename_i c r2
      split at h
      · rename_i hc
        subst hc
        split at h
        · simp at h
        · rename_i hds
          split at h
          · cases h
            exact ⟨cat, _, hds, fun c hc => mem_takeWhile_pred c hc, hagain, hupper,
              Or.inl rfl⟩
          · rename_i c3 r4 hr4
            split at h
            · rename_i hc3
              subst hc3
              split at h
              · cases h
                exact ⟨cat, _, hds, fun c hc => mem_takeWhile_pred c hc, hagain, hupper,
                  Or.inl rfl⟩
              · rename_i hds2
                cases h
                exact ⟨cat, _, hds, fun c hc => mem_takeWhile_pred c hc, hagain, hupper,
                  Or.inr ⟨_, hds2, fun c hc => mem_takeWhile_pred c hc, rfl⟩⟩
            · cases h
              exact ⟨cat, _, hds, fun c hc => mem_takeWhile_pred c hc, hagain, hupper,
                Or.inl rfl⟩
      · simp at h

theorem head_not_digit {c0 : Char} (hc0 : c0.isDigit = false) {l : List Char} :
    ∀ c ∈ ((c0 :: l).head?), c.isDigit = false := by
  intro c hc
  rw [List.head?_cons, Option.mem_def] at hc
  injection hc with h
  subst h
  exact hc0

theorem numTail_of_parts {ds sub : List Char} (hds : ds ≠ [])
    (hdig : ∀ c ∈ ds, c.isDigit = true)
    (hsub : sub = [] ∨ ∃ ds2, ds2 ≠ [] ∧ (∀ c ∈ ds2, c.isDigit = true) ∧ sub = '.' :: ds2) :
    numTail (ds ++ sub) = true := by
  rcases hsub with rfl | ⟨ds2, hds2, hdig2, rfl⟩
  · obtain ⟨htw, hdw⟩ := takeWhile_all_eq hdig
    simp only [numTail, List.append_nil, htw, hdw]
    simp [hds]
  · have hta : (ds ++ '.' :: ds2).takeWhile Char.isDigit = ds ∧
        (ds ++ '.' :: ds2).dropWhile Char.isDigit = '.' :: ds2 :=
      takeWhile_append_eq hdig (head_not_digit (by decide))
    obtain ⟨htw, hdw⟩ := hta
    simp only [numTail, htw, hdw]
    simp [hds, hds2, List.all_eq_true]
    exact hdig2

/-- A successful anchored match, uppercased, lies in the Identifier Grammar. -/
theorem matchIdAt_isBrickIdU {cs m r : List Char} (h : matchIdAt cs = some (m, r)) :
    isBrickIdU (upperStr m) = true := by
  obtain ⟨cat, ds, hds, hdig, -, hupper, hm⟩ := matchIdAt_shape h
  have hds_up : upperStr ds = ds :=
    upperStr_fixed fun c hc => toUpper_of_isDigit (hdig c hc)
  have htail : ∀ tl, numTail tl = true →
      isBrickIdU (upperStr cat ++ '-' :: tl) = true := by
    intro tl htl
    rcases hupper with hu | hu | hu <;> rw [hu] <;> simpa [isBrickIdU] using htl
  rcases hm with rfl | ⟨ds2, hds2, hdig2, rfl⟩
  · have : upperStr (cat ++ '-' :: ds) = upperStr cat ++ '-' :: ds := by
      simp only [upperStr, List.map_append, List.map_cons]
      rw [show ('-').toUpper = '-' by decide]
      simp only [upperStr] at hds_up
      rw [hds_up]
    rw [this]
    have hnum := numTail_of_parts hds hdig (Or.inl rfl)
    rw [List.append_nil] at hnum
    exact htail ds hnum
  · have hds2_up : upperStr ds2 = ds2 :=
      upperStr_fixed fun c hc => toUpper_of_isDigit (hdig2 c hc)
    have : upperStr (cat ++ '-' :: ds ++ '.' :: ds2) =
        upperStr cat ++ '-' :: (ds ++ '.' :: ds2) := by
      simp only [upperStr, List.map_append, List.map_cons]
      rw [show ('-').toUpper = '-' by decide, show ('.').toUpper = '.' by decide]
      simp only [upperStr] at hds_up hds2_up
      rw [hds_up, hds2_up]
      simp
    rw [this]
    exact htail _ (numTail_of_parts hds hdig (Or.inr ⟨ds2, hds2, hdig2, rfl⟩))

/-- A match is itself an exact match of the whole pattern. -/
theorem matchIdAt_self {cs m r : List Char} (h : matchIdAt cs = some (m, r)) :
    matchIdAt m = some (m, []) := by
  obtain ⟨cat, ds, hds, hdig, hagain, -, hm⟩ := matchIdAt_shape h
  rcases hm with rfl | ⟨ds2, hds2, hdig2, rfl⟩
  · obtain ⟨htw, hdw⟩ := takeWhile_all_eq hdig
    unfold matchIdAt
    rw [hagain ('-' :: ds)]
    dsimp only
    rw [if_pos rfl, htw, hdw, if_neg hds]
  · have hta : (ds ++ '.' :: ds2).takeWhile Char.isDigit = ds ∧
        (ds ++ '.' :: ds2).dropWhile Char.isDigit = '.' :: ds2 :=
      takeWhile_append_eq hdig (head_not_digit (by decide))
    obtain ⟨htw, hdw⟩ := hta
    obtain ⟨htw2, hdw2⟩ := takeWhile_all_eq hdig2
    unfold matchIdAt
    rw [show cat ++ '-' :: ds ++ '.' :: ds2 = cat ++ '-' :: (ds ++ '.' :: ds2) by simp,
      hagain ('-' :: (ds ++ '.' :: ds2))]
    dsimp only
    rw [if_pos rfl, htw, hdw, if_neg hds]
    dsimp only
    rw [if_pos rfl, htw2, hdw2, if_neg hds2]
    simp

/-- An exact match still matches (possibly longer) with anything appended. -/
theorem matchIdAt_extend {m : List Char} (h : matchIdAt m = some (m, []))
    (post : List Char) : (matchIdAt (m ++ post)).isSome = true := by
  obtain ⟨cat, ds, hds, hdig, hagain, -, hm⟩ := matchIdAt_shape h
  obtain ⟨d, ds', rfl, hd⟩ : ∃ d ds', ds = d :: ds' ∧ d.isDigit = true := by
    match ds, hds with
    | d :: ds', _ => exact ⟨d, ds', rfl, hdig d (by simp)⟩
  rcases hm with rfl | ⟨ds2, hds2, hdig2, rfl⟩
  · unfold matchIdAt
    rw [show (cat ++ '-' :: (d :: ds')) ++ post = cat ++ '-' :: (d :: (ds' ++ post)) by simp,
      hagain]
    dsimp only
    rw [if_pos rfl, List.takeWhile_cons_of_pos hd, if_neg (by simp)]
    split
    · rfl
    · split
      · split <;> rfl
      · rfl
  · have hta : ((d :: ds') ++ '.' :: (ds2 ++ post)).takeWhile Char.isDigit = d :: ds' ∧
        ((d :: ds') ++ '.' :: (ds2 ++ post)).dropWhile Char.isDigit = '.' :: (ds2 ++ post) :=
      takeWhile_append_eq hdig (head_not_digit (by decide))
    obtain ⟨htw, hdw⟩ := hta
    unfold matchIdAt
    rw [show (cat ++ '-' :: (d :: ds') ++ '.' :: ds2) ++ post =
        cat ++ '-' :: ((d :: ds') ++ '.' :: (ds2 ++ post)) by simp, hagain]
    dsimp only
    rw [if_pos rfl, htw, hdw, if_neg (by simp)]
    dsimp only
    rw [if_pos rfl]
    split <;> rfl

/-! ### Canonical identifiers: decomposition, uppercase fixedness, re-matching -/

theorem numTail_cases {tl : List Char} (h : numTail tl = true) :
    ∃ ds, ds ≠ [] ∧ (∀ c ∈ ds, c.isDigit = true) ∧
      (tl = ds ∨ ∃ ds2, ds2 ≠ [] ∧ (∀ c ∈ ds2, c.isDigit = true) ∧ tl = ds ++ '.' :: ds2) := by
  unfold numTail at h
  rw [Bool.and_eq_true] at h
  obtain ⟨h1, h2⟩ := h
  have hds : tl.takeWhile Char.isDigit ≠ [] := by simpa using h1
  refine ⟨tl.takeWhile Char.isDigit, hds, fun c hc => mem_takeWhile_pred c hc, ?_⟩
  split at h2
  · rename_i hdw
    left
    conv_lhs => rw [← List.takeWhile_append_dropWhile (p := Char.isDigit) (l := tl), hdw]
    simp
  · rename_i ds2 hdw
    right
    rw [Bool.and_eq_true] at h2
    refine ⟨ds2, by simpa using h2.1, List.all_eq_true.mp h2.2, ?_⟩
    conv_lhs => rw [← List.takeWhile_append_dropWhile (p := Char.isDigit) (l := tl), hdw]
  · simp at h2

theorem isBrickIdU_cases {x : List Char} (h : isBrickIdU x = true) :
    ∃ lead tl, (lead = ['K', 'W'] ∨ lead = ['S'] ∨ lead = ['G']) ∧
      x = lead ++ '-' :: tl ∧ numTail tl = true := by
  unfold isBrickIdU at h
  split at h
  · exact ⟨['K', 'W'], _, Or.inl rfl, rfl, h⟩
  · exact ⟨['S'], _, Or.inr (Or.inl rfl), rfl, h⟩
  · exact ⟨['G'], _, Or.inr (Or.inr rfl), rfl, h⟩
  · simp at h

theorem upperStr_canonical {x : List Char} (h : isBrickIdU x = true) : upperStr x = x := by
  obtain ⟨lead, tl, hlead, rfl, htl⟩ := isBrickIdU_cases h
  obtain ⟨ds, hds, hdig, hsub⟩ := numTail_cases htl
  have hlead_up : upperStr lead = lead := by
    rcases hlead with rfl | rfl | rfl <;> decide
  have htl_up : upperStr tl = tl := by
    rcases hsub with rfl | ⟨ds2, hds2, hdig2, rfl⟩
    · exact upperStr_fixed fun c hc => toUpper_of_isDigit (hdig c hc)
    · apply upperStr_fixed
      intro c hc
      rcases List.mem_append.mp hc with hc | hc
      · exact toUpper_of_isDigit (hdig c hc)
      · rcases List.mem_cons.mp hc with rfl | hc
        · decide
        · exact toUpper_of_isDigit (hdig2 c hc)
  simp only [upperStr, List.map_append, List.map_cons] at hlead_up htl_up ⊢
  rw [hlead_up, htl_up, show ('-').toUpper = '-' by decide]

theorem map_upperStr_canonical {l : List (List Char)}
    (h : ∀ x ∈ l, isBrickIdU x = true) : l.map upperStr = l := by
  induction l with
  | nil => rfl
  | cons x l ih =>
    rw [List.map_cons, upperStr_canonical (h x (by simp)),
      ih fun z hz => h z (by simp [hz])]

theorem isBrickIdU_head {x : List Char} (h : isBrickIdU x = true) :
    ∃ c t, x = c :: t ∧ (c = 'K' ∨ c = 'S' ∨ c = 'G') := by
  obtain ⟨lead, tl, hlead, rfl, -⟩ := isBrickIdU_cases h
  rcases hlead with rfl | rfl | rfl
  · exact ⟨'K', _, rfl, Or.inl rfl⟩
  · exact ⟨'S', _, rfl, Or.inr (Or.inl rfl)⟩
  · exact ⟨'G', _, rfl, Or.inr (Or.inr rfl)⟩

theorem matchCat_lead {lead : List Char}
    (hlead : lead = ['K', 'W'] ∨ lead = ['S'] ∨ lead = ['G']) (w : List Char) :
    matchCat (lead ++ '-' :: w) = some (lead, '-' :: w) := by
  rcases hlead with rfl | rfl | rfl
  · show matchCat ('K' :: 'W' :: '-' :: w) = _
    simp only [matchCat]
    rw [if_pos ⟨by decide, by decide⟩]
  · show matchCat ('S' :: '-' :: w) = _
    simp only [matchCat]
    rw [if_neg (by rintro ⟨h1, -⟩; exact absurd h1 (by decide)),
      if_pos (Or.inl (by decide))]
  · show matchCat ('G' :: '-' :: w) = _
    simp only [matchCat]
    rw [if_neg (by rintro ⟨h1, -⟩; exact absurd h1 (by decide)),
      if_pos (Or.inr (by decide))]

/-- A canonical identifier matches exactly itself when followed by nothing
or by a comma (the separator used by the sanitizer's join). -/
theorem matchIdAt_canonical {x : List Char} (hx : isBrickIdU x = true) (t : List Char)
    (ht : t = [] ∨ ∃ u, t = ',' :: u) :
    matchIdAt (x ++ t) = some (x, t) := by
  obtain ⟨lead, tl, hlead, rfl, htl⟩ := isBrickIdU_cases hx
  obtain ⟨ds, hds, hdig, hsub⟩ := numTail_cases htl
  have hthead : ∀ c ∈ t.head?, c.isDigit = false := by
    rcases ht with rfl | ⟨u, rfl⟩
    · intro c hc
      simp at hc
    · exact head_not_digit (by decide)
  rcases hsub with rfl | ⟨ds2, hds2, hdig2, rfl⟩
  · have hta : (tl ++ t).takeWhile Char.isDigit = tl ∧ (tl ++ t).dropWhile Char.isDigit = t :=
      takeWhile_append_eq hdig hthead
    obtain ⟨htw, hdw⟩ := hta
    unfold matchIdAt
    rw [show (lead ++ '-' :: tl) ++ t = lead ++ '-' :: (tl ++ t) by simp,
      matchCat_lead hlead]
    dsimp only
    rw [if_pos rfl, htw, hdw, if_neg hds]
    rcases ht with rfl | ⟨u, rfl⟩
    · rfl
    · dsimp only
      rw [if_neg (by decide)]
  · have hta2 : (ds2 ++ t).takeWhile Char.isDigit = ds2 ∧
        (ds2 ++ t).dropWhile Char.isDigit = t :=
      takeWhile_append_eq hdig2 hthead
    obtain ⟨htw2, hdw2⟩ := hta2
    have hta1 : (ds ++ '.' :: (ds2 ++ t)).takeWhile Char.isDigit = ds ∧
        (ds ++ '.' :: (ds2 ++ t)).dropWhile Char.isDigit = '.' :: (ds2 ++ t) :=
      takeWhile_append_eq hdig (head_not_digit (by decide))
    obtain ⟨htw1, hdw1⟩ := hta1
    unfold matchIdAt
    rw [show (lead ++ '-' :: (ds ++ '.' :: ds2)) ++ t =
        lead ++ '-' :: (ds ++ '.' :: (ds2 ++ t)) by simp, matchCat_lead hlead]
    dsimp only
    rw [if_pos rfl, htw1, hdw1, if_neg hds]
    dsimp only
    rw [if_pos rfl, htw2, hdw2, if_neg hds2]
    simp

/-! ### Positions that cannot start a match -/

theorem matchCat_none {c : Char} (hk : c.toUpper ≠ 'K') (hs : c.toUpper ≠ 'S')
    (hg : c.toUpper ≠ 'G') (r : List Char) : matchCat (c :: r) = none := by
  cases r with
  | nil =>
    simp only [matchCat]
    rw [if_neg (by rintro (h | h); exacts [hs h, hg h])]
  | cons c2 r' =>
    simp only [matchCat]
    rw [if_neg (by rintro ⟨h, -⟩; exact hk h),
      if_neg (by rintro (h | h); exacts [hs h, hg h])]

theorem matchIdAt_none_of_matchCat {cs : List Char} (h : matchCat cs = none) :
    matchIdAt cs = none := by
  unfold matchIdAt
  rw [h]

theorem matchIdAt_comma {r : List Char} : matchIdAt (',' :: r) = none :=
  matchIdAt_none_of_matchCat (matchCat_none (by decide) (by decide) (by decide) r)

theorem matchIdAt_space {r : List Char} : matchIdAt (' ' :: r) = none :=
  matchIdAt_none_of_matchCat (matchCat_none (by decide) (by decide) (by decide) r)

theorem matchIdAt_nil : matchIdAt [] = none := rfl

/-! ### Global facts about the scan -/

theorem findAll_nil : findAll [] = [] := rfl

theorem findAll_match {cs m r : List Char} (h : matchIdAt cs = some (m, r)) :
    findAll cs = m :: findAll r := by
  match cs with
  | [] =>
    rw [matchIdAt_nil] at h
    cases h
  | c :: rest => exact findAll_cons_match h

/-- Everything the scan emits is, uppercased, in the Identifier Grammar. -/
theorem findAll_mem {cs m : List Char} (h : m ∈ findAll cs) :
    isBrickIdU (upperStr m) = true := by
  suffices haux : ∀ (fuel : Nat) (l w : List Char), w ∈ findAllAux fuel l →
      isBrickIdU (upperStr w) = true from haux cs.length cs m h
  intro fuel
  induction fuel with
  | zero =>
    intro l w hw
    simp [findAllAux] at hw
  | succ f ih =>
    intro l w hw
    match l with
    | [] => simp [findAllAux] at hw
    | c :: rest =>
      rw [findAllAux] at hw
      cases hm : matchIdAt (c :: rest) with
      | none =>
        rw [hm] at hw
        exact ih rest w hw
      | some mr =>
        obtain ⟨m0, r⟩ := mr
        rw [hm] at hw
        simp only at hw
        rcases List.mem_cons.mp hw with rfl | hw
        · exact matchIdAt_isBrickIdU hm
        · exact ih r w hw

/-- Scanning a `", "`-joined sequence of canonical identifiers recovers
exactly that sequence. -/
theorem findAll_joinIds {ids : List (List Char)} (hne : ids ≠ [])
    (hall : ∀ x ∈ ids, isBrickIdU x = true) : findAll (joinIds ids) = ids := by
  induction ids with
  | nil => exact absurd rfl hne
  | cons x ids ih =>
    have hx := hall x (by simp)
    cases ids with
    | nil =>
      have hm : matchIdAt (x ++ []) = some (x, []) := matchIdAt_canonical hx [] (Or.inl rfl)
      rw [List.append_nil] at hm
      show findAll x = [x]
      rw [findAll_match hm, findAll_nil]
    | cons y ids' =>
      have hm := matchIdAt_canonical hx (',' :: ' ' :: joinIds (y :: ids'))
        (Or.inr ⟨_, rfl⟩)
      show findAll (x ++ ',' :: ' ' :: joinIds (y :: ids')) = x :: y :: ids'
      rw [findAll_match hm, findAll_cons_nomatch matchIdAt_comma,
        findAll_cons_nomatch matchIdAt_space,
        ih (by simp) fun z hz => hall z (by simp [hz])]

/-- Case analysis on the sanitizer's result: either the fallback `"-"`, or a
`", "`-join of canonical Identifier-Grammar tokens. -/
theorem clean_structure (raw : String) :
    clean_prerequisites raw = "-" ∨
      ∃ ids, ids ≠ [] ∧ (∀ x ∈ ids, isBrickIdU x = true) ∧
        (clean_prerequisites raw).data = joinIds ids := by
  unfold clean_prerequisites
  split
  · exact Or.inl rfl
  · split
    · exact Or.inl rfl
    · rename_i hne
      right
      refine ⟨(findAll raw.data).map upperStr, hne, ?_, rfl⟩
      intro x hx
      obtain ⟨w, hw, rfl⟩ := List.mem_map.mp hx
      exact findAll_mem hw

example : clean_prerequisites "KW-1 (Launch Catia) and S-5" = "KW-1, S-5" := by decide
example : clean_prerequisites "-" = "-" := by decide
example : clean_prerequisites "kw-2.10 then g-3" = "KW-2.10, G-3" := by decide
example : clean_prerequisites "nothing here" = "-" := by decide
example : select_retriever "explain S-10.5" = .specific := by decide
example : select_retriever "open a part" = .general := by decide

theorem searchBrickId_iff (cs : List Char) :
    searchBrickId cs = true ↔
      ∃ pre m post, cs = pre ++ m ++ post ∧ matchIdAt m = some (m, []) := by
  induction cs with
  | nil =>
    constructor
    · intro h
      simp [searchBrickId] at h
    · rintro ⟨pre, m, post, hm, h⟩
      have hmnil : m = [] := by
        have h0 := hm.symm
        rw [List.append_assoc] at h0
        have h1 := List.append_eq_nil.mp h0
        exact (List.append_eq_nil.mp h1.2).1
      subst hmnil
      rw [matchIdAt_nil] at h
      cases h
  | cons c rest ih =>
    constructor
    · intro h
      simp only [searchBrickId, Bool.or_eq_true] at h
      rcases h with h | h
      · obtain ⟨⟨m, r⟩, hm⟩ := Option.isSome_iff_exists.mp h
        obtain ⟨hd, -⟩ := matchIdAt_decomp hm
        exact ⟨[], m, r, by simpa using hd, matchIdAt_self hm⟩
      · obtain ⟨pre, m, post, hd, hm⟩ := ih.mp h
        exact ⟨c :: pre, m, post, by simp [hd], hm⟩
    · rintro ⟨pre, m, post, hd, hm⟩
      cases pre with
      | nil =>
        simp only [List.nil_append] at hd
        simp only [searchBrickId, Bool.or_eq_true]
        left
        rw [hd]
        exact matchIdAt_extend hm post
      | cons p pre' =>
        simp only [List.cons_append] at hd
        injection hd with h1 h2
        simp only [searchBrickId, Bool.or_eq_true]
        right
        exact ih.mpr ⟨pre', m, post, h2, hm⟩

/-! ### Claim theorems about the sanitizer and the router -/

/-- C1: for every raw prerequisite string, `_clean_prerequisites` returns
either the literal `"-"` or a `", "`-separated sequence of tokens each of
which lies exactly in the Identifier Grammar (a category from the fixed
set `KW`/`S`/`G`, the separator `-`, one or more digits, an optional `.`
sub-index) — never a raw free-text description. -/
theorem C1_clean_prerequisites_only_valid_ids (raw : String) :
    clean_prerequisites raw = "-" ∨
      ∃ ids, ids ≠ [] ∧ (∀ x ∈ ids, isBrickIdU x = true) ∧
        (clean_prerequisites raw).data = joinIds ids :=
  clean_structure raw

/-- C2: `_clean_prerequisites` equals the reference sanitizer written from
the spec's words (collect every non-overlapping Identifier-Grammar match in
left-to-right order, uppercase, join with `", "`, with `"-"` for an empty
string, `"-"`, or no matches); in particular it maps
`"KW-1 (Launch Catia) and S-5"` to `"KW-1, S-5"`. -/
theorem C2_clean_prerequisites_eq_spec :
    (∀ raw, clean_prerequisites raw = sanitizeSpec raw) ∧
      clean_prerequisites "KW-1 (Launch Catia) and S-5" = "KW-1, S-5" := by
  constructor
  · intro raw
    unfold clean_prerequisites sanitizeSpec
    by_cases h1 : raw = "" ∨ raw = "-"
    · rw [if_pos h1, if_pos (by tauto)]
    · rw [if_neg h1]
      by_cases h2 : (findAll raw.data).map upperStr = []
      · rw [if_pos h2, if_pos (by tauto)]
      · rw [if_neg h2, if_neg (by tauto)]
  · decide

/-- C9: the sanitizer is idempotent: sanitizing an already-sanitized string
returns that same string. -/
theorem C9_clean_prerequisites_idempotent (raw : String) :
    clean_prerequisites (clean_prerequisites raw) = clean_prerequisites raw := by
  rcases clean_structure raw with h | ⟨ids, hne, hall, hdata⟩
  · rw [h]
    decide
  · obtain ⟨s, hsdef⟩ : ∃ s, clean_prerequisites raw = s := ⟨_, rfl⟩
    rw [hsdef] at hdata ⊢
    obtain ⟨c, t, hjoin, hc⟩ : ∃ c t, joinIds ids = c :: t ∧
        (c = 'K' ∨ c = 'S' ∨ c = 'G') := by
      match ids, hne, hall with
      | x :: ids', _, hall =>
        obtain ⟨c, t0, hx, hc⟩ := isBrickIdU_head (hall x (by simp))
        cases ids' with
        | nil => exact ⟨c, t0, by rw [show joinIds [x] = x from rfl, hx], hc⟩
        | cons y ids'' =>
          refine ⟨c, t0 ++ ',' :: ' ' :: joinIds (y :: ids''), ?_, hc⟩
          rw [show joinIds (x :: y :: ids'') = x ++ ',' :: ' ' :: joinIds (y :: ids'')
            from rfl, hx]
          rfl
    have hsne : ¬(s = "" ∨ s = "-") := by
      rintro (rfl | rfl)
      · rw [hjoin] at hdata
        exact absurd hdata (by simp)
      · rw [hjoin] at hdata
        have h2 : (['-'] : List Char) = c :: t := hdata
        injection h2 with h3 h4
        rcases hc with rfl | rfl | rfl <;> exact absurd h3 (by decide)
    unfold clean_prerequisites
    rw [if_neg hsne, hdata, findAll_joinIds hne hall, map_upperStr_canonical hall,
      if_neg hne]
    cases s with
    | mk data => exact congrArg String.mk hdata.symm

/-- C4: routing is a deterministic pure function of the query text and the
grammar: the specific retriever is selected exactly when the text contains
a substring matching the Identifier Grammar, and the general retriever
exactly when it contains none. -/
theorem C4_select_retriever_routing (q : String) :
    (select_retriever q = RetrieverTag.specific ↔
      ∃ pre m post, q.data = pre ++ m ++ post ∧ matchIdAt m = some (m, [])) ∧
    (select_retriever q = RetrieverTag.general ↔
      ¬∃ pre m post, q.data = pre ++ m ++ post ∧ matchIdAt m = some (m, [])) := by
  unfold select_retriever
  by_cases hs : searchBrickId q.data = true
  · rw [if_pos hs]
    constructor
    · exact ⟨fun _ => (searchBrickId_iff q.data).mp hs, fun _ => rfl⟩
    · constructor
      · intro h
        exact absurd h (by decide)
      · intro h
        exact absurd ((searchBrickId_iff q.data).mp hs) h
  · rw [if_neg hs]
    constructor
    · constructor
      · intro h
        exact absurd h (by decide)
      · intro h
        exact absurd ((searchBrickId_iff q.data).mpr h) hs
    · exact ⟨fun _ h => hs ((searchBrickId_iff q.data).mpr h), fun _ => rfl⟩

/-! ### The parse layer -/

example : loads "5" = some (Json.num ['5']) := by rfl
example : loads "\x7b\"a\": 1" = none := by rfl
example : loads "[1, 2.5e3, true, null, \"x\"]" =
    some (Json.arr [Json.num ['1'], Json.num ['2', '.', '5', 'e', '3'], Json.bool true,
      Json.null, Json.str "x"]) := by rfl
example : cleanedText "```json 5 ```" = "5" := by rfl
example : loads "[[[[[1]]]]]" =
    some (Json.arr [Json.arr [Json.arr [Json.arr [Json.arr [Json.num ['1']]]]]]) := by rfl

/-- C5 counterexample: the raw text `"5"` decodes to a bare number, on which
the membership test `"bricks" not in data` raises a `TypeError` that
`_parse_json` does not catch — the exception escapes to the caller instead
of a `bricks`-keyed result being returned. -/
theorem C5_cex_parse_json_raises : parse_json "5" = Except.error "TypeError" := rfl

/-- C5 (amended): an exception escapes `_parse_json` only when the decoded
top-level value is a number, a boolean or `null`; when decoding fails
outright the fallback `bricks`-keyed object is returned and nothing is
raised. -/
theorem C5_parse_json_amended (text : String) :
    (∀ e, parse_json text = .error e →
      (∃ lex, loads (cleanedText text) = some (Json.num lex)) ∨
      (∃ b, loads (cleanedText text) = some (Json.bool b)) ∨
      loads (cleanedText text) = some Json.null) ∧
    (loads (cleanedText text) = none →
      parse_json text = .ok (Json.obj [("bricks", Json.arr [])])) := by
  constructor
  · intro e he
    unfold parse_json at he
    cases hl : loads (cleanedText text) with
    | none =>
      rw [hl] at he
      simp at he
    | some j =>
      rw [hl] at he
      cases j with
      | null => exact Or.inr (Or.inr rfl)
      | bool b => exact Or.inr (Or.inl ⟨b, rfl⟩)
      | num lex => exact Or.inl ⟨lex, rfl⟩
      | str s =>
        dsimp only at he
        rw [show pyContains "bricks" (Json.str s) =
          .ok (containsSub s.data "bricks".data) from rfl] at he
        cases hb : containsSub s.data "bricks".data <;> rw [hb] at he <;> simp at he
      | arr es =>
        dsimp only at he
        rw [show pyContains "bricks" (Json.arr es) =
          .ok (es.any (jsonStrEq "bricks")) from rfl] at he
        cases hb : es.any (jsonStrEq "bricks") <;> rw [hb] at he <;> simp at he
      | obj fs =>
        dsimp only at he
        rw [show pyContains "bricks" (Json.obj fs) =
          .ok (hasKey fs "bricks") from rfl] at he
        cases hb : hasKey fs "bricks" <;> rw [hb] at he <;> simp at he
  · intro hl
    unfold parse_json
    rw [hl]

theorem C5_parse_json_amended_witness :
    ((∃ lex, loads (cleanedText "5") = some (Json.num lex)) ∨
      (∃ b, loads (cleanedText "5") = some (Json.bool b)) ∨
      loads (cleanedText "5") = some Json.null) ∧
    parse_json "not json" = Except.ok (Json.obj [("bricks", Json.arr [])]) :=
  ⟨(C5_parse_json_amended "5").1 "TypeError" rfl,
   (C5_parse_json_amended "not json").2 rfl⟩

/-- C7: after fence stripping, a decoded object with a `bricks` key is
returned unchanged; a decoded object without one, and undecodable text,
both yield the fallback `bricks`-keyed object, with nothing raised. -/
theorem C7_parse_json_contract (text : String) :
    (∀ fields, loads (cleanedText text) = some (Json.obj fields) →
      (hasKey fields "bricks" = true → parse_json text = .ok (Json.obj fields)) ∧
      (hasKey fields "bricks" = false →
        parse_json text = .ok (Json.obj [("bricks", Json.arr [])]))) ∧
    (loads (cleanedText text) = none →
      parse_json text = .ok (Json.obj [("bricks", Json.arr [])])) := by
  constructor
  · intro fields hl
    constructor
    · intro hk
      unfold parse_json
      rw [hl]
      dsimp only
      rw [show pyContains "bricks" (Json.obj fields) =
        .ok (hasKey fields "bricks") from rfl, hk]
    · intro hk
      unfold parse_json
      rw [hl]
      dsimp only
      rw [show pyContains "bricks" (Json.obj fields) =
        .ok (hasKey fields "bricks") from rfl, hk]
  · intro hl
    unfold parse_json
    rw [hl]

theorem C7_parse_json_contract_witness :
    parse_json
        "```json\n\x7b\"bricks\": [\x7b\"id\": \"KW-1\", \"prerequisites\": \"-\"\x7d]\x7d\n```" =
      Except.ok (Json.obj [("bricks", Json.arr
        [Json.obj [("id", Json.str "KW-1"), ("prerequisites", Json.str "-")]])]) :=
  ((C7_parse_json_contract _).1
    [("bricks", Json.arr [Json.obj [("id", Json.str "KW-1"), ("prerequisites", Json.str "-")]])]
    (by rfl)).1 (by rfl)

/-! ### The formatter -/

theorem formatSpecAux_enumFrom (docs : List Document) :
    ∀ i, (List.enumFrom i docs).map (fun p => formatDoc p.1 p.2) =
      formatSpecAux (i + 1) docs := by
  induction docs with
  | nil => intro i; rfl
  | cons d ds ih =>
    intro i
    rw [List.enumFrom_cons, List.map_cons, ih (i + 1)]
    rfl

theorem joinBlocks_head_data (x : String) (xs : List String) :
    ∃ t, (joinBlocks (x :: xs)).data = x.data ++ t := by
  cases xs with
  | nil => exact ⟨[], by simp [joinBlocks]⟩
  | cons y ys => exact ⟨"\n\n".data ++ (joinBlocks (y :: ys)).data, by simp [joinBlocks]⟩

/-- C6: the formatter returns exactly the sentinel on an empty sequence,
agrees with the spec's reference formatter (stable numbering in the order
received, source-id and uppercased chunk-type prefix with the documented
defaults, single-line trimmed content), and never returns the empty
string. -/
theorem C6_format_context_spec (docs : List Document) :
    format_context [] = "No relevant context found." ∧
    format_context docs = formatSpec docs ∧
    format_context docs ≠ "" := by
  refine ⟨rfl, ?_, ?_⟩
  · unfold format_context formatSpec
    cases docs with
    | nil => rfl
    | cons d ds =>
      rw [if_neg (by simp), if_neg (by simp)]
      show joinBlocks ((List.enumFrom 0 (d :: ds)).map fun p => formatDoc p.1 p.2) = _
      rw [formatSpecAux_enumFrom (d :: ds) 0]
  · cases docs with
    | nil =>
      have h0 : format_context [] = "No relevant context found." := rfl
      rw [h0]
      decide
    | cons d ds =>
      intro h
      unfold format_context at h
      rw [if_neg (by simp)] at h
      have hdata := congrArg String.data h
      rw [show List.enum (d :: ds) = (0, d) :: List.enumFrom 1 ds from rfl,
        List.map_cons] at hdata
      obtain ⟨t, ht⟩ := joinBlocks_head_data (formatDoc 0 d)
        ((List.enumFrom 1 ds).map fun p => formatDoc p.1 p.2)
      rw [ht] at hdata
      have hne := List.append_eq_nil.mp hdata
      have hcons : ∃ u, (formatDoc 0 d).data = '-' :: u := ⟨_, rfl⟩
      obtain ⟨u, hu⟩ := hcons
      rw [hu] at hne
      cases hne.1

/-! ### The row processor -/

/-- C3: any fault raised inside `run_batch_row`'s try block — a chain fault
(retrieval or model failure, or the parser's escaped `TypeError`) or any
later exception — is caught and rendered as the fixed ERROR record with the
fault's text in the Description field; no exception propagates. -/
theorem C3_run_batch_row_error_record (chain : String → ChainOutcome) (desc : String) :
    (∀ msg, chain desc = ChainOutcome.fault msg →
      run_batch_row chain desc = ⟨"ERROR", "System Error", "-", msg⟩) ∧
    (∀ msg, runBody chain desc = .error msg →
      run_batch_row chain desc = ⟨"ERROR", "System Error", "-", msg⟩) := by
  constructor
  · intro msg h
    unfold run_batch_row runBody
    rw [h]
    rfl
  · intro msg h
    unfold run_batch_row
    rw [h]
    rfl

theorem C3_run_batch_row_error_record_witness :
    run_batch_row (fun _ => ChainOutcome.fault "retriever unreachable") "launch catia" =
      ⟨"ERROR", "System Error", "-", "retriever unreachable"⟩ :=
  (C3_run_batch_row_error_record (fun _ => ChainOutcome.fault "retriever unreachable")
    "launch catia").1 "retriever unreachable" rfl

/-- C8: a parsed response whose `bricks` value is the empty array yields the
fixed No Match record, every required field of which is non-empty. -/
theorem C8_run_batch_row_no_match (chain : String → ChainOutcome) (desc : String)
    (result : Json) (hres : chain desc = ChainOutcome.ok result)
    (hbricks : pyGet result "bricks" (Json.arr []) = .ok (Json.arr [])) :
    run_batch_row chain desc = ⟨"No Match", "-", "-", "No relevant brick found."⟩ ∧
      ∀ f ∈ ["No Match", "-", "-", "No relevant brick found."], f ≠ "" := by
  constructor
  · unfold run_batch_row runBody
    rw [hres]
    dsimp only
    rw [hbricks]
    rfl
  · decide

theorem C8_run_batch_row_no_match_witness :
    run_batch_row (fun _ => ChainOutcome.ok (Json.obj [("bricks", Json.arr [])])) "x" =
      ⟨"No Match", "-", "-", "No relevant brick found."⟩ :=
  (C8_run_batch_row_no_match (fun _ => ChainOutcome.ok (Json.obj [("bricks", Json.arr [])]))
    "x" (Json.obj [("bricks", Json.arr [])]) rfl rfl).1

theorem processBrick_obj (fs : List (String × Json)) :
    processBrick (Json.obj fs) = .ok (getField (Json.obj fs) "id",
      getField (Json.obj fs) "name",
      clean_prerequisites (pyStr (getField (Json.obj fs) "prerequisites")),
      "[" ++ pyStr (getField (Json.obj fs) "id") ++
        "]: Mapped based on operation description.") := rfl

theorem mapExcept_processBrick (bs : List Json)
    (h : ∀ b ∈ bs, ∃ fs, b = Json.obj fs) :
    mapExcept processBrick bs = .ok (bs.map fun b =>
      (getField b "id", getField b "name",
        clean_prerequisites (pyStr (getField b "prerequisites")),
        "[" ++ pyStr (getField b "id") ++ "]: Mapped based on operation description.")) := by
  induction bs with
  | nil => rfl
  | cons b bs ih =>
    obtain ⟨fs, rfl⟩ := h b (by simp)
    rw [List.map_cons, mapExcept, processBrick_obj, ih fun z hz => h z (by simp [hz])]

theorem asStrs_of_strs (xs : List Json) (h : ∀ x ∈ xs, ∃ t, x = Json.str t) :
    asStrs xs = some (xs.map pyStr) := by
  induction xs with
  | nil => rfl
  | cons x xs ih =>
    obtain ⟨t, rfl⟩ := h x (by simp)
    rw [List.map_cons, asStrs, ih fun z hz => h z (by simp [hz])]
    rfl

/-- C10: brick entries that are dictionaries need not carry `id`, `name` or
`prerequisites`: a missing field contributes the default `"-"`, the raw
prerequisites value is coerced through `str()` before sanitization whatever
its type, and a well-shaped four-field record is produced. -/
theorem C10_run_batch_row_field_defaults (chain : String → ChainOutcome) (desc : String)
    (result : Json) (bs : List Json)
    (hres : chain desc = ChainOutcome.ok result)
    (hbricks : pyGet result "bricks" (Json.arr []) = .ok (Json.arr bs))
    (hne : bs ≠ [])
    (hdict : ∀ b ∈ bs, ∃ fs, b = Json.obj fs ∧
      (∀ v, objGet fs "id" = some v → ∃ t, v = Json.str t) ∧
      (∀ v, objGet fs "name" = some v → ∃ t, v = Json.str t)) :
    run_batch_row chain desc =
      ⟨joinNl (bs.map fun b => pyStr (getField b "id")),
       joinNl (bs.map fun b => pyStr (getField b "name")),
       joinNl (bs.map fun b => clean_prerequisites (pyStr (getField b "prerequisites"))),
       joinNl (bs.map fun b =>
         "[" ++ pyStr (getField b "id") ++ "]: Mapped based on operation description.")⟩ := by
  have hid_str : ∀ b ∈ bs, ∃ t, getField b "id" = Json.str t := by
    intro b hb
    obtain ⟨fs, rfl, hid, -⟩ := hdict b hb
    unfold getField
    dsimp only
    cases ho : objGet fs "id" with
    | none => exact ⟨"-", rfl⟩
    | some v =>
      obtain ⟨t, rfl⟩ := hid v ho
      exact ⟨t, rfl⟩
  have hname_str : ∀ b ∈ bs, ∃ t, getField b "name" = Json.str t := by
    intro b hb
    obtain ⟨fs, rfl, -, hname⟩ := hdict b hb
    unfold getField
    dsimp only
    cases ho : objGet fs "name" with
    | none => exact ⟨"-", rfl⟩
    | some v =>
      obtain ⟨t, rfl⟩ := hname v ho
      exact ⟨t, rfl⟩
  have hids : joinPyStrs (bs.map fun b => getField b "id") =
      .ok (joinNl (bs.map fun b => pyStr (getField b "id"))) := by
    unfold joinPyStrs
    rw [asStrs_of_strs _ (by
      intro x hx
      obtain ⟨b, hb, rfl⟩ := List.mem_map.mp hx
      exact hid_str b hb), List.map_map]
    rfl
  have hnames : joinPyStrs (bs.map fun b => getField b "name") =
      .ok (joinNl (bs.map fun b => pyStr (getField b "name"))) := by
    unfold joinPyStrs
    rw [asStrs_of_strs _ (by
      intro x hx
      obtain ⟨b, hb, rfl⟩ := List.mem_map.mp hx
      exact hname_str b hb), List.map_map]
    rfl
  unfold run_batch_row runBody
  rw [hres]
  dsimp only
  rw [hbricks]
  dsimp only
  rw [if_neg (by simp [pyFalsy, hne]),
    show pyIter (Json.arr bs) = .ok bs from rfl]
  dsimp only
  rw [mapExcept_processBrick bs (fun b hb => ⟨(hdict b hb).choose, (hdict b hb).choose_spec.1⟩)]
  dsimp only
  rw [show ((bs.map fun b =>
      (getField b "id", getField b "name",
        clean_prerequisites (pyStr (getField b "prerequisites")),
        "[" ++ pyStr (getField b "id") ++ "]: Mapped based on operation description.")).map
      fun r => r.1) = bs.map fun b => getField b "id" by rw [List.map_map]; rfl]
  rw [hids]
  dsimp only
  rw [show ((bs.map fun b =>
      (getField b "id", getField b "name",
        clean_prerequisites (pyStr (getField b "prerequisites")),
        "[" ++ pyStr (getField b "id") ++ "]: Mapped based on operation description.")).map
      fun r => r.2.1) = bs.map fun b => getField b "name" by rw [List.map_map]; rfl]
  rw [hnames]
  dsimp only
  rw [show ((bs.map fun b =>
      (getField b "id", getField b "name",
        clean_prerequisites (pyStr (getField b "prerequisites")),
        "[" ++ pyStr (getField b "id") ++ "]: Mapped based on operation description.")).map
      fun r => r.2.2.1) =
      bs.map fun b => clean_prerequisites (pyStr (getField b "prerequisites")) by
    rw [List.map_map]
    rfl]
  rw [show ((bs.map fun b =>
      (getField b "id", getField b "name",
        clean_prerequisites (pyStr (getField b "prerequisites")),
        "[" ++ pyStr (getField b "id") ++ "]: Mapped based on operation description.")).map
      fun r => r.2.2.2) = bs.map fun b =>
        "[" ++ pyStr (getField b "id") ++ "]: Mapped based on operation description." by
    rw [List.map_map]
    rfl]

theorem C10_run_batch_row_field_defaults_witness :
    run_batch_row (fun _ => ChainOutcome.ok (Json.obj [("bricks", Json.arr
        [Json.obj [], Json.obj [("id", Json.str "KW-9"), ("prerequisites", Json.num ['5'])]])]))
      "x" =
      ⟨"-\nKW-9", "-\n-", "-\n-",
        "[-]: Mapped based on operation description.\n[KW-9]: Mapped based on operation description."⟩ := by
  have h := C10_run_batch_row_field_defaults
    (fun _ => ChainOutcome.ok (Json.obj [("bricks", Json.arr
      [Json.obj [], Json.obj [("id", Json.str "KW-9"), ("prerequisites", Json.num ['5'])]])]))
    "x"
    (Json.obj [("bricks", Json.arr
      [Json.obj [], Json.obj [("id", Json.str "KW-9"), ("prerequisites", Json.num ['5'])]])])
    [Json.obj [], Json.obj [("id", Json.str "KW-9"), ("prerequisites", Json.num ['5'])]]
    rfl rfl (by simp)
    (by
      intro b hb
      simp only [List.mem_cons, List.not_mem_nil, or_false] at hb
      rcases hb with rfl | rfl
      · refine ⟨[], rfl, ?_, ?_⟩ <;> intro v hv <;> simp [objGet] at hv
      · refine ⟨[("id", Json.str "KW-9"), ("prerequisites", Json.num ['5'])], rfl, ?_, ?_⟩
        · intro v hv
          rw [show objGet [("id", Json.str "KW-9"), ("prerequisites", Json.num ['5'])] "id" =
            some (Json.str "KW-9") from rfl] at hv
          injection hv with hv
          exact ⟨"KW-9", hv.symm⟩
        · intro v hv
          rw [show objGet [("id", Json.str "KW-9"), ("prerequisites", Json.num ['5'])] "name" =
            none from rfl] at hv
          cases hv)
  rw [h]
  rfl

end RAGPipeline
